import Mathlib

/-!
Shallow embedding of the wordle-bot solver.

Words are modelled as lists of characters; a `FeedbackPattern` is the base-3
integer encoding used by the source (a `u8` in `[0, 242]`, which never
overflows, so `Nat` is exact).  The per-letter availability counter array
indexed by `byte - b'a'` is modelled as a total function `Char → Nat`
(identical on the lowercase inputs the source asserts as a precondition).
Entropy values are `f64` in the source and are modelled as real numbers;
those definitions are noncomputable but the branch structure around them is
exact.
-/

/-- Word length for Wordle (`WORD_LENGTH` in `lib.rs`). -/
def WORD_LENGTH : Nat := 5

/-- A word: the source passes `&str` of exactly `WORD_LENGTH` lowercase letters. -/
abbrev Word := List Char

/-- `Feedback` from `feedback.rs`: per-letter classification. -/
inductive Feedback where
  | Correct
  | Present
  | Absent
deriving DecidableEq, Fintype

namespace Feedback

/-- `Feedback::from_char`: parse from a character (g=green, y=yellow, b=black/gray),
digit aliases 2/1/0 and x for gray, ASCII-case-insensitive
(Rust `to_ascii_lowercase`, which `Char.toLower` matches exactly). -/
def from_char (c : Char) : Option Feedback :=
  match c.toLower with
  | 'g' | '2' => some Feedback.Correct
  | 'y' | '1' => some Feedback.Present
  | 'b' | 'x' | '0' => some Feedback.Absent
  | _ => none

end Feedback

/-- `FeedbackPattern` is a newtype over `u8` in the source; its value always
lies in `[0, 242]` when produced by `new` on five feedbacks, so `Nat` models
it exactly. -/
abbrev FeedbackPattern := Nat

namespace FeedbackPattern

/-- The pattern indicating all correct (winning), `ALL_CORRECT = 242`. -/
def ALL_CORRECT : FeedbackPattern := 2 + 2 * 3 + 2 * 9 + 2 * 27 + 2 * 81

/-- Total number of possible patterns (3^5). -/
def NUM_PATTERNS : Nat := 243

/-- Digit value of one feedback in the base-3 encoding
(Absent=0, Present=1, Correct=2). -/
def feedbackValue : Feedback → Nat
  | Feedback.Absent => 0
  | Feedback.Present => 1
  | Feedback.Correct => 2

/-- The accumulation loop of `FeedbackPattern::new`: running multiplier starts
at 1 and is tripled per position. -/
def encodeGo : List Feedback → Nat → Nat
  | [], _ => 0
  | fb :: rest, m => feedbackValue fb * m + encodeGo rest (m * 3)

/-- `FeedbackPattern::new`: create a pattern from individual feedback values. -/
def new (feedbacks : List Feedback) : FeedbackPattern :=
  encodeGo feedbacks 1

/-- First pass of `FeedbackPattern::calculate` (availability counters): for
each position where guess and target differ, the target letter's counter is
incremented; `countRemaining pairs c` is the final counter for letter `c`. -/
def countRemaining : List (Char × Char) → Char → Nat
  | [], _ => 0
  | (g, t) :: rest, c => (if g ≠ t ∧ t = c then 1 else 0) + countRemaining rest c

/-- Second pass of `FeedbackPattern::calculate`, fused with the Correct marks
of the first pass (position `i` is Correct exactly when the letters agree):
left-to-right, a non-Correct position is Present when the guess letter's
remaining counter is positive (decrementing it), else Absent. -/
def pass2 : List (Char × Char) → (Char → Nat) → List Feedback
  | [], _ => []
  | (g, t) :: rest, rem =>
    if g = t then Feedback.Correct :: pass2 rest rem
    else if 0 < rem g then
      Feedback.Present :: pass2 rest (fun c => if c = g then rem c - 1 else rem c)
    else
      Feedback.Absent :: pass2 rest rem

/-- `FeedbackPattern::calculate`: feedback pattern of a guess against a target. -/
def calculate (guess target : Word) : FeedbackPattern :=
  new (pass2 (guess.zip target) (countRemaining (guess.zip target)))

/-- Digit decoding in `to_feedbacks`: `pattern % 3` is 0, 1 or 2, so the
`unreachable!` arm of the source match collapses into the Correct arm. -/
def digitFeedback : Nat → Feedback
  | 0 => Feedback.Absent
  | 1 => Feedback.Present
  | _ => Feedback.Correct

/-- The divide/modulo loop of `to_feedbacks`, lowest position first. -/
def decodeGo : Nat → Nat → List Feedback
  | 0, _ => []
  | n + 1, p => digitFeedback (p % 3) :: decodeGo n (p / 3)

/-- `FeedbackPattern::to_feedbacks`: convert pattern to the array of feedbacks. -/
def to_feedbacks (p : FeedbackPattern) : List Feedback :=
  decodeGo WORD_LENGTH p

/-- `FeedbackPattern::is_win`: equality with `ALL_CORRECT`. -/
def is_win (p : FeedbackPattern) : Bool :=
  p == ALL_CORRECT

/-- The `collect::<Option<Vec<_>>>` of `parse`: maps `from_char` over the
characters, failing on the first unrecognized one. -/
def mapFromChar : List Char → Option (List Feedback)
  | [] => some []
  | c :: rest => do
    let fb ← Feedback.from_char c
    let rest2 ← mapFromChar rest
    some (fb :: rest2)

/-- `FeedbackPattern::parse`: length guard, per-character parse, then encode.
(The source's `try_into` to a fixed array always succeeds under the length
guard.) -/
def parse (s : List Char) : Option FeedbackPattern :=
  if s.length ≠ WORD_LENGTH then none
  else
    match mapFromChar s with
    | none => none
    | some feedbacks => some (new feedbacks)

end FeedbackPattern

/-- `HardModeConstraints` from `solver.rs`; the `[Option<char>; WORD_LENGTH]`
array is modelled as a function from `Fin WORD_LENGTH`. -/
structure HardModeConstraints where
  required_positions : Fin WORD_LENGTH → Option Char
  required_letters : List Char

namespace HardModeConstraints

/-- `HardModeConstraints::new` (= `Default`): no fixed positions, no letters. -/
def new : HardModeConstraints :=
  { required_positions := fun _ => none, required_letters := [] }

/-- Writing index `i` of the fixed-position array. -/
def setPos (rp : Fin WORD_LENGTH → Option Char) (i : Nat) (c : Char) :
    Fin WORD_LENGTH → Option Char :=
  fun j => if j.val = i then some c else rp j

/-- The indexed loop of `HardModeConstraints::update` over
`feedbacks.iter().enumerate()` zipped with the guess characters. -/
def updateGo : List (Feedback × Char) → Nat → HardModeConstraints → HardModeConstraints
  | [], _, C => C
  | (fb, ch) :: rest, i, C =>
    match fb with
    | Feedback.Correct =>
        updateGo rest (i + 1)
          { C with required_positions := setPos C.required_positions i ch }
    | Feedback.Present =>
        updateGo rest (i + 1)
          (if ch ∈ C.required_letters then C
           else { C with required_letters := C.required_letters ++ [ch] })
    | Feedback.Absent => updateGo rest (i + 1) C

/-- `HardModeConstraints::update`: decode the pattern and record green letters
as fixed positions, yellow letters (deduplicated) as required letters. -/
def update (C : HardModeConstraints) (guess : Word) (pattern : FeedbackPattern) :
    HardModeConstraints :=
  updateGo ((FeedbackPattern.to_feedbacks pattern).zip guess) 0 C

/-- `HardModeConstraints::is_valid`: the word has every fixed letter at its
position (`word_chars.get(i)` is the `w[i]?` lookup) and contains every
required letter. -/
def is_valid (C : HardModeConstraints) (word : Word) : Bool :=
  ((List.finRange WORD_LENGTH).all fun i =>
    match C.required_positions i with
    | some c => word[i.val]? == some c
    | none => true) &&
  (C.required_letters.all fun c => word.contains c)

/-- `HardModeConstraints::is_empty`. -/
def is_empty (C : HardModeConstraints) : Bool :=
  ((List.finRange WORD_LENGTH).all fun i => (C.required_positions i).isNone) &&
  C.required_letters.isEmpty

end HardModeConstraints

/-- `GuessAnalysis` from `solver.rs`; the `f64` fields are modelled as reals. -/
structure GuessAnalysis where
  word : Word
  entropy : ℝ
  expected_remaining : ℝ
  is_possible_answer : Bool

/-- `WordleSolver` state from `solver.rs`. -/
structure WordleSolver where
  all_words : List Word
  possible_answers : List Word
  hard_mode : Bool
  constraints : HardModeConstraints

namespace WordleSolver

/-- `WordleSolver::new`. -/
def new (words : List Word) : WordleSolver :=
  { possible_answers := words
    all_words := words
    hard_mode := false
    constraints := HardModeConstraints.new }

/-- `WordleSolver::set_hard_mode`. -/
def set_hard_mode (s : WordleSolver) (enabled : Bool) : WordleSolver :=
  { s with hard_mode := enabled }

/-- `WordleSolver::is_hard_mode`. -/
def is_hard_mode (s : WordleSolver) : Bool :=
  s.hard_mode

/-- `WordleSolver::remaining_count`. -/
def remaining_count (s : WordleSolver) : Nat :=
  s.possible_answers.length

/-- `WordleSolver::reset`. -/
def reset (s : WordleSolver) : WordleSolver :=
  { s with possible_answers := s.all_words, constraints := HardModeConstraints.new }

/-- `WordleSolver::apply_feedback`: in hard mode first feed the pair into the
constraint tracker, then retain exactly the candidates whose simulated
feedback equals the given pattern. -/
def apply_feedback (s : WordleSolver) (guess : Word) (pattern : FeedbackPattern) :
    WordleSolver :=
  let s1 := if s.hard_mode then { s with constraints := s.constraints.update guess pattern }
            else s
  { s1 with
    possible_answers :=
      s1.possible_answers.filter fun word => FeedbackPattern.calculate guess word == pattern }

/-- `WordleSolver::valid_guesses`. -/
def valid_guesses (s : WordleSolver) : List Word :=
  if s.hard_mode && !s.constraints.is_empty then
    s.all_words.filter fun w => s.constraints.is_valid w
  else
    s.all_words

/-- `WordleSolver::calculate_entropy_for_word`: Shannon entropy (base 2) of
the empirical pattern distribution of `guess` over the current candidates.
The histogram bucket for pattern value `v` is the count of candidates whose
simulated feedback is `v`. -/
noncomputable def calculate_entropy_for_word (s : WordleSolver) (guess : Word) : ℝ :=
  if (s.possible_answers.length : ℝ) ≤ 1 then 0
  else
    ∑ v in Finset.range FeedbackPattern.NUM_PATTERNS,
      (if 0 < (s.possible_answers.filter
                fun w => FeedbackPattern.calculate guess w == v).length then
        -(((s.possible_answers.filter
              fun w => FeedbackPattern.calculate guess w == v).length : ℝ) /
            (s.possible_answers.length : ℝ) *
          Real.logb 2
            (((s.possible_answers.filter
                fun w => FeedbackPattern.calculate guess w == v).length : ℝ) /
              (s.possible_answers.length : ℝ)))
      else 0)

/-- The `sort_by` comparator of `find_best_guesses`: descending entropy, ties
broken by preferring guesses flagged as possible answers.  (`partial_cmp` on
reals is total, so the `None => Equal` arm of the source cannot fire.) -/
noncomputable def rankLE (a b : GuessAnalysis) : Bool :=
  if a.entropy = b.entropy then decide (b.is_possible_answer ≤ a.is_possible_answer)
  else decide (b.entropy ≤ a.entropy)

/-- `WordleSolver::find_best_guesses`: fast paths for 0/1/2 candidates, then
the entropy ranking over the eligible guesses (`possible_answers[0]` is the
`headI` of a list the branch guard proves nonempty). -/
noncomputable def find_best_guesses (s : WordleSolver) (n : Nat) : List GuessAnalysis :=
  if s.possible_answers.isEmpty then []
  else if s.possible_answers.length = 1 then
    [{ word := s.possible_answers.headI
       entropy := 0
       expected_remaining := 1
       is_possible_answer := true }]
  else if s.possible_answers.length = 2 then
    [{ word := s.possible_answers.headI
       entropy := 1
       expected_remaining := 1
       is_possible_answer := true }]
  else
    ((s.valid_guesses.map fun word =>
      { word := word
        entropy := s.calculate_entropy_for_word word
        expected_remaining :=
          (s.possible_answers.length : ℝ) / (2 : ℝ) ^ s.calculate_entropy_for_word word
        is_possible_answer := s.possible_answers.contains word : GuessAnalysis }).mergeSort
      rankLE).take n

/-- `WordleSolver::find_best_guess`. -/
noncomputable def find_best_guess (s : WordleSolver) : Option GuessAnalysis :=
  (s.find_best_guesses 1).head?

/-- The `for _ in 0..6` loop of `solve_with_feedback`, with the remaining
round count as fuel: pick the best guess (stopping if there is none), obtain
the pattern from the provider, record the pair, stop on a win, otherwise
apply the feedback and continue. -/
noncomputable def solveLoop (fuel : Nat) (s : WordleSolver)
    (get_feedback : Word → FeedbackPattern) : List (Word × FeedbackPattern) :=
  match fuel with
  | 0 => []
  | fuel + 1 =>
    match s.find_best_guess with
    | none => []
    | some best =>
      let pattern := get_feedback best.word
      if pattern.is_win then [(best.word, pattern)]
      else (best.word, pattern) :: solveLoop fuel (s.apply_feedback best.word pattern) get_feedback

/-- `WordleSolver::solve_with_feedback`: up to 6 rounds. -/
noncomputable def solve_with_feedback (s : WordleSolver)
    (get_feedback : Word → FeedbackPattern) : List (Word × FeedbackPattern) :=
  solveLoop 6 s get_feedback

/-- `WordleSolver::solve_for_target`: the known-target oracle. -/
noncomputable def solve_for_target (s : WordleSolver) (target : Word) :
    List (Word × FeedbackPattern) :=
  s.solve_with_feedback fun guess => FeedbackPattern.calculate guess target

/-- `WordleSolver::benchmark_average_guesses`: each parallel task runs
`solve_for_target` on a private clone of `self` (pure state passing here) and
the guess counts are summed, then divided by the word count. -/
noncomputable def benchmark_average_guesses (s : WordleSolver) : ℝ :=
  (((s.all_words.map fun target => (s.solve_for_target target).length).sum : ℝ)) /
    (s.all_words.length : ℝ)

end WordleSolver

/-- Solver states reachable through the public operations, with the source's
precondition that every word handed to the solver has exactly `WORD_LENGTH`
characters. -/
inductive Reachable : WordleSolver → Prop where
  | init (words : List Word) (h : ∀ w ∈ words, w.length = WORD_LENGTH) :
      Reachable (WordleSolver.new words)
  | set_hard (s : WordleSolver) (b : Bool) :
      Reachable s → Reachable (s.set_hard_mode b)
  | reset (s : WordleSolver) : Reachable s → Reachable s.reset
  | apply (s : WordleSolver) (guess : Word) (pattern : FeedbackPattern)
      (h : guess.length = WORD_LENGTH) :
      Reachable s → Reachable (s.apply_feedback guess pattern)

/-- Concrete words used in the test vectors. -/
def wSpeed : Word := "speed".toList

def wCreep : Word := "creep".toList

def wArose : Word := "arose".toList

def wCrane : Word := "crane".toList

def wCharm : Word := "charm".toList

def wTrace : Word := "trace".toList

/-- Pattern strings used by the parse test vector. -/
def pGybbb : List Char := "gybbb".toList

def p21000 : List Char := "21000".toList

/-- A one-word solver used in closed instances of the theorems. -/
def solverCrane : WordleSolver := WordleSolver.new [wCrane]

/-- A two-word solver used in closed instances of the theorems. -/
def solverCraneTrace : WordleSolver := WordleSolver.new [wCrane, wTrace]

/-- An oracle that always reports a win. -/
def oracleWin : Word → FeedbackPattern := fun _ => FeedbackPattern.ALL_CORRECT

/-- A hard-mode solver state after one feedback application. -/
def solverCraneHard : WordleSolver :=
  ((WordleSolver.new [wCrane]).set_hard_mode true).apply_feedback wCrane
    FeedbackPattern.ALL_CORRECT

/-! ## Lemmas about the pattern codec -/

set_option maxRecDepth 4000 in
/-- Decoding after encoding restores all five feedbacks (checked by enumerating
the 243 cases). -/
lemma to_feedbacks_new_five : ∀ a b c d e : Feedback,
    FeedbackPattern.to_feedbacks (FeedbackPattern.new [a, b, c, d, e]) = [a, b, c, d, e] := by
  decide

/-- Decoding after encoding restores any feedback list of length `WORD_LENGTH`. -/
lemma to_feedbacks_new (l : List Feedback) (h : l.length = WORD_LENGTH) :
    FeedbackPattern.to_feedbacks (FeedbackPattern.new l) = l := by
  rcases l with _ | ⟨a, _ | ⟨b, _ | ⟨c, _ | ⟨d, _ | ⟨e, _ | ⟨f, l⟩⟩⟩⟩⟩⟩
  all_goals simp only [WORD_LENGTH, List.length_nil, List.length_cons] at h
  any_goals omega
  exact to_feedbacks_new_five a b c d e

/-- The second pass yields one feedback per position. -/
lemma pass2_length (pairs : List (Char × Char)) :
    ∀ rem : Char → Nat, (FeedbackPattern.pass2 pairs rem).length = pairs.length := by
  induction pairs with
  | nil => intro rem; rfl
  | cons p rest ih =>
    intro rem
    obtain ⟨g, t⟩ := p
    rw [FeedbackPattern.pass2]
    split
    · simp [ih]
    · split <;> simp [ih]

/-- A position marked Correct by the second pass has equal guess and target
letters. -/
lemma pass2_correct (pairs : List (Char × Char)) :
    ∀ (rem : Char → Nat) (i : Nat) (g t : Char),
      pairs[i]? = some (g, t) →
      (FeedbackPattern.pass2 pairs rem)[i]? = some Feedback.Correct → g = t := by
  induction pairs with
  | nil => intro rem i g t hp _; simp at hp
  | cons p rest ih =>
    intro rem i g t hp hc
    obtain ⟨g0, t0⟩ := p
    rw [FeedbackPattern.pass2] at hc
    split at hc
    next h0 =>
      cases i with
      | zero =>
        simp only [List.getElem?_cons_zero, Option.some.injEq, Prod.mk.injEq] at hp
        obtain ⟨h1, h2⟩ := hp
        rw [← h1, ← h2]; exact h0
      | succ j =>
        simp only [List.getElem?_cons_succ] at hp hc
        exact ih rem j g t hp hc
    next =>
      split at hc
      next =>
        cases i with
        | zero => simp at hc
        | succ j =>
          simp only [List.getElem?_cons_succ] at hp hc
          exact ih _ j g t hp hc
      next =>
        cases i with
        | zero => simp at hc
        | succ j =>
          simp only [List.getElem?_cons_succ] at hp hc
          exact ih rem j g t hp hc

/-- A position marked Present by the second pass has a positive availability
counter for its guess letter in the counter state the pass started from. -/
lemma pass2_present (pairs : List (Char × Char)) :
    ∀ (rem : Char → Nat) (i : Nat) (g t : Char),
      pairs[i]? = some (g, t) →
      (FeedbackPattern.pass2 pairs rem)[i]? = some Feedback.Present → 0 < rem g := by
  induction pairs with
  | nil => intro rem i g t hp _; simp at hp
  | cons p rest ih =>
    intro rem i g t hp hc
    obtain ⟨g0, t0⟩ := p
    rw [FeedbackPattern.pass2] at hc
    split at hc
    next =>
      cases i with
      | zero => simp at hc
      | succ j =>
        simp only [List.getElem?_cons_succ] at hp hc
        exact ih rem j g t hp hc
    next =>
      split at hc
      next hrem =>
        cases i with
        | zero =>
          simp only [List.getElem?_cons_zero, Option.some.injEq, Prod.mk.injEq] at hp
          rw [← hp.1]; exact hrem
        | succ j =>
          simp only [List.getElem?_cons_succ] at hp hc
          have := ih _ j g t hp hc
          by_cases hgg : g = g0
          · subst hgg
            simp only [if_pos rfl] at this
            omega
          · simpa [if_neg hgg] using this
      next =>
        cases i with
        | zero => simp at hc
        | succ j =>
          simp only [List.getElem?_cons_succ] at hp hc
          exact ih rem j g t hp hc

/-- A letter with a positive availability counter occurs as the target letter
of some pair. -/
lemma countRemaining_pos (pairs : List (Char × Char)) (c : Char)
    (h : 0 < FeedbackPattern.countRemaining pairs c) : ∃ p ∈ pairs, p.2 = c := by
  induction pairs with
  | nil => simp [FeedbackPattern.countRemaining] at h
  | cons p rest ih =>
    obtain ⟨g, t⟩ := p
    rw [FeedbackPattern.countRemaining] at h
    by_cases hgt : g ≠ t ∧ t = c
    · exact ⟨(g, t), List.mem_cons_self _ _, hgt.2⟩
    · rw [if_neg hgt] at h
      simp only [Nat.zero_add] at h
      obtain ⟨q, hq, hqc⟩ := ih h
      exact ⟨q, List.mem_cons_of_mem _ hq, hqc⟩

/-- For length-`WORD_LENGTH` words, the decoded feedbacks of `calculate` are
exactly the fused-two-pass output. -/
lemma to_feedbacks_calculate (guess w : Word)
    (hg : guess.length = WORD_LENGTH) (hw : w.length = WORD_LENGTH) :
    FeedbackPattern.to_feedbacks (FeedbackPattern.calculate guess w) =
      FeedbackPattern.pass2 (guess.zip w)
        (FeedbackPattern.countRemaining (guess.zip w)) := by
  rw [FeedbackPattern.calculate]
  apply to_feedbacks_new
  rw [pass2_length, List.length_zip, hg, hw]
  rfl

/-! ## Lemmas about hard-mode constraints -/

/-- Propositional characterization of `is_valid`. -/
lemma is_valid_iff (C : HardModeConstraints) (w : Word) :
    C.is_valid w = true ↔
      ((∀ (i : Fin WORD_LENGTH) (c : Char),
          C.required_positions i = some c → w[i.val]? = some c) ∧
       ∀ c ∈ C.required_letters, c ∈ w) := by
  rw [HardModeConstraints.is_valid, Bool.and_eq_true, List.all_eq_true, List.all_eq_true]
  constructor
  · rintro ⟨h1, h2⟩
    refine ⟨fun i c hc => ?_, fun c hc => ?_⟩
    · have hi := h1 i (List.mem_finRange i)
      rw [hc] at hi
      exact eq_of_beq hi
    · have hi := h2 c hc
      simpa [List.contains, List.elem_iff] using hi
  · rintro ⟨h1, h2⟩
    refine ⟨fun i _ => ?_, fun c hc => ?_⟩
    · cases hrp : C.required_positions i with
      | none => simp [hrp]
      | some c => simp [hrp, h1 i c hrp]
    · simpa [List.contains, List.elem_iff] using h2 c hc

/-- Empty constraints accept every word. -/
lemma is_empty_is_valid (C : HardModeConstraints) (hC : C.is_empty = true) (w : Word) :
    C.is_valid w = true := by
  rw [HardModeConstraints.is_empty, Bool.and_eq_true, List.all_eq_true] at hC
  obtain ⟨h1, h2⟩ := hC
  rw [is_valid_iff]
  constructor
  · intro i c hc
    have hi := h1 i (List.mem_finRange i)
    rw [hc] at hi
    simp at hi
  · intro c hc
    rw [List.isEmpty_iff] at h2
    rw [h2] at hc
    simp at hc

/-- Fresh constraints accept every word. -/
lemma is_valid_new (w : Word) : HardModeConstraints.new.is_valid w = true := by
  rw [is_valid_iff]
  constructor
  · intro i c hc
    simp [HardModeConstraints.new] at hc
  · intro c hc
    simp [HardModeConstraints.new] at hc

/-- Constraint accumulation preserves validity of a word that satisfies every
piece of evidence the processed pairs contribute. -/
lemma updateGo_valid (w : Word) (pairs : List (Feedback × Char)) :
    ∀ (i : Nat) (C : HardModeConstraints),
      C.is_valid w = true →
      (∀ (k : Nat) (fb : Feedback) (ch : Char), pairs[k]? = some (fb, ch) →
        (fb = Feedback.Correct → w[i + k]? = some ch) ∧
        (fb = Feedback.Present → ch ∈ w)) →
      (HardModeConstraints.updateGo pairs i C).is_valid w = true := by
  induction pairs with
  | nil => intro i C hv _; exact hv
  | cons p rest ih =>
    intro i C hv hk
    obtain ⟨fb, ch⟩ := p
    have hrest : ∀ (k : Nat) (fb1 : Feedback) (ch1 : Char), rest[k]? = some (fb1, ch1) →
        (fb1 = Feedback.Correct → w[(i + 1) + k]? = some ch1) ∧
        (fb1 = Feedback.Present → ch1 ∈ w) := by
      intro k fb1 ch1 hr
      have hk1 := hk (k + 1) fb1 ch1 (by simpa using hr)
      refine ⟨fun h1 => ?_, hk1.2⟩
      have := hk1.1 h1
      rwa [show i + (k + 1) = i + 1 + k by omega] at this
    cases fb with
    | Correct =>
      simp only [HardModeConstraints.updateGo]
      refine ih (i + 1) _ ?_ hrest
      rw [is_valid_iff] at hv ⊢
      obtain ⟨hp, hl⟩ := hv
      refine ⟨fun j c hc => ?_, hl⟩
      have hc2 : HardModeConstraints.setPos C.required_positions i ch j = some c := hc
      rw [HardModeConstraints.setPos] at hc2
      by_cases hji : j.val = i
      · rw [if_pos hji] at hc2
        injection hc2 with hc3
        have hch := (hk 0 Feedback.Correct ch (by simp)).1 rfl
        rw [Nat.add_zero] at hch
        rw [hji, ← hc3]
        exact hch
      · rw [if_neg hji] at hc2
        exact hp j c hc2
    | Present =>
      simp only [HardModeConstraints.updateGo]
      refine ih (i + 1) _ ?_ hrest
      by_cases hmem : ch ∈ C.required_letters
      · rw [if_pos hmem]; exact hv
      · rw [if_neg hmem]
        rw [is_valid_iff] at hv ⊢
        obtain ⟨hp, hl⟩ := hv
        refine ⟨hp, fun c hc => ?_⟩
        rcases List.mem_append.mp hc with h | h
        · exact hl c h
        · rw [List.mem_singleton] at h
          rw [h]
          exact (hk 0 Feedback.Present ch (by simp)).2 rfl
    | Absent =>
      simp only [HardModeConstraints.updateGo]
      exact ih (i + 1) C hv hrest

/-- A word consistent with a guess's feedback stays valid after the tracker
absorbs that (guess, pattern) pair. -/
lemma update_valid (C : HardModeConstraints) (guess w : Word)
    (hg : guess.length = WORD_LENGTH) (hw : w.length = WORD_LENGTH)
    (hv : C.is_valid w = true) :
    (C.update guess (FeedbackPattern.calculate guess w)).is_valid w = true := by
  rw [HardModeConstraints.update]
  apply updateGo_valid w _ 0 C hv
  intro k fb ch hk
  rw [to_feedbacks_calculate guess w hg hw] at hk
  rw [List.getElem?_zip_eq_some] at hk
  obtain ⟨hfb, hch⟩ := hk
  have hklt : k < (guess.zip w).length := by
    have h1 : k < (FeedbackPattern.pass2 (guess.zip w)
        (FeedbackPattern.countRemaining (guess.zip w))).length := by
      rcases List.getElem?_eq_some.mp hfb with ⟨h, _⟩
      exact h
    rwa [pass2_length] at h1
  obtain ⟨g, t, hgt⟩ : ∃ g t, (guess.zip w)[k]? = some (g, t) := by
    rcases hzz : (guess.zip w)[k]? with _ | p
    · rw [List.getElem?_eq_none_iff] at hzz
      omega
    · exact ⟨p.1, p.2, by rw [Prod.mk.eta]⟩
  obtain ⟨hg1, hw1⟩ := List.getElem?_zip_eq_some.mp hgt
  have hgch : g = ch := by
    rw [hg1] at hch
    injection hch
  constructor
  · intro hfbEq
    rw [hfbEq] at hfb
    have hgt2 := pass2_correct (guess.zip w) _ k g t hgt hfb
    rw [Nat.zero_add, hw1, ← hgt2, hgch]
  · intro hfbEq
    rw [hfbEq] at hfb
    have hpos := pass2_present (guess.zip w) _ k g t hgt hfb
    obtain ⟨p, hpZ, hp2⟩ := countRemaining_pos (guess.zip w) g hpos
    obtain ⟨pa, pb⟩ := p
    have hmem := (List.of_mem_zip hpZ).2
    rw [← hgch]
    simp only at hp2
    rw [← hp2]
    exact hmem

/-! ## Lemmas about the solver state -/

/-- The retain step of `apply_feedback`, independent of the hard-mode branch. -/
lemma apply_feedback_possible_answers (s : WordleSolver) (guess : Word)
    (pattern : FeedbackPattern) :
    (s.apply_feedback guess pattern).possible_answers =
      s.possible_answers.filter
        fun word => FeedbackPattern.calculate guess word == pattern := by
  rw [WordleSolver.apply_feedback]
  by_cases h : s.hard_mode = true <;> simp [h]

/-- `apply_feedback` leaves the dictionary unchanged. -/
lemma apply_feedback_all_words (s : WordleSolver) (guess : Word)
    (pattern : FeedbackPattern) :
    (s.apply_feedback guess pattern).all_words = s.all_words := by
  rw [WordleSolver.apply_feedback]
  by_cases h : s.hard_mode = true <;> simp [h]

/-- The constraint effect of `apply_feedback`. -/
lemma apply_feedback_constraints (s : WordleSolver) (guess : Word)
    (pattern : FeedbackPattern) :
    (s.apply_feedback guess pattern).constraints =
      if s.hard_mode then s.constraints.update guess pattern else s.constraints := by
  rw [WordleSolver.apply_feedback]
  by_cases h : s.hard_mode = true <;> simp [h]

/-- Core reachability invariant: every dictionary word has length
`WORD_LENGTH`, and every remaining candidate has length `WORD_LENGTH` and
satisfies the accumulated constraints (whenever a constraint was added, the
candidate set was simultaneously filtered by the same guess/pattern pair). -/
lemma reachable_inv {s : WordleSolver} (h : Reachable s) :
    (∀ w ∈ s.all_words, w.length = WORD_LENGTH) ∧
    (∀ w ∈ s.possible_answers,
      w.length = WORD_LENGTH ∧ s.constraints.is_valid w = true) := by
  induction h with
  | init words hw => exact ⟨hw, fun w hmem => ⟨hw w hmem, is_valid_new w⟩⟩
  | set_hard s b _ ih => exact ih
  | reset s _ ih => exact ⟨ih.1, fun w hmem => ⟨ih.1 w hmem, is_valid_new w⟩⟩
  | apply s guess pattern hg _ ih =>
    refine ⟨?_, fun w hmem => ?_⟩
    · rw [apply_feedback_all_words]; exact ih.1
    · rw [apply_feedback_possible_answers, List.mem_filter] at hmem
      obtain ⟨hmem, hcalc⟩ := hmem
      obtain ⟨hwlen, hvalid⟩ := ih.2 w hmem
      refine ⟨hwlen, ?_⟩
      rw [apply_feedback_constraints]
      by_cases hhm : s.hard_mode = true
      · rw [hhm, if_pos rfl]
        have hpat : FeedbackPattern.calculate guess w = pattern := eq_of_beq hcalc
        rw [← hpat]
        exact update_valid s.constraints guess w hg hwlen hvalid
      · rw [if_neg (by simpa using hhm)]
        exact hvalid

/-- The solve loop never produces more pairs than it has fuel (rounds). -/
lemma solveLoop_length_le (f : Word → FeedbackPattern) :
    ∀ (fuel : Nat) (s : WordleSolver),
      (WordleSolver.solveLoop fuel s f).length ≤ fuel := by
  intro fuel
  induction fuel with
  | zero => intro s; simp [WordleSolver.solveLoop]
  | succ n ih =>
    intro s
    cases hb : s.find_best_guess with
    | none => simp [WordleSolver.solveLoop, hb]
    | some best =>
      simp only [WordleSolver.solveLoop, hb]
      by_cases hw2 : (f best.word).is_win = true
      · rw [if_pos hw2]
        simp
      · rw [if_neg hw2]
        simp only [List.length_cons]
        exact Nat.succ_le_succ (ih _)

/-- In the solve loop's output a winning pattern only ever sits at the last
position. -/
lemma solveLoop_win_last (f : Word → FeedbackPattern) :
    ∀ (fuel : Nat) (s : WordleSolver) (i : Nat) (gp : Word × FeedbackPattern),
      (WordleSolver.solveLoop fuel s f)[i]? = some gp → gp.2.is_win = true →
      i + 1 = (WordleSolver.solveLoop fuel s f).length := by
  intro fuel
  induction fuel with
  | zero => intro s i gp hget _; simp [WordleSolver.solveLoop] at hget
  | succ n ih =>
    intro s i gp hget hwin
    cases hb : s.find_best_guess with
    | none => simp [WordleSolver.solveLoop, hb] at hget
    | some best =>
      simp only [WordleSolver.solveLoop, hb] at hget ⊢
      by_cases hw2 : (f best.word).is_win = true
      · rw [if_pos hw2] at hget ⊢
        cases i with
        | zero => simp
        | succ j => simp at hget
      · rw [if_neg hw2] at hget ⊢
        cases i with
        | zero =>
          rw [List.getElem?_cons_zero] at hget
          injection hget with hget
          rw [← hget] at hwin
          exact absurd hwin hw2
        | succ j =>
          rw [List.getElem?_cons_succ] at hget
          rw [List.length_cons]
          have := ih _ j gp hget hwin
          omega

/-- Success of the character-wise parse collection is success on every
character. -/
lemma mapFromChar_isSome (l : List Char) :
    (FeedbackPattern.mapFromChar l).isSome = true ↔
      ∀ c ∈ l, (Feedback.from_char c).isSome = true := by
  induction l with
  | nil => simp [FeedbackPattern.mapFromChar]
  | cons c rest ih =>
    rw [FeedbackPattern.mapFromChar, List.forall_mem_cons, ← ih]
    cases hc : Feedback.from_char c <;>
      cases hr : FeedbackPattern.mapFromChar rest <;>
        simp [hc, hr]

set_option maxRecDepth 4000 in
/-- Full decode/encode round trip over the whole pattern range, by
enumeration. -/
lemma new_to_feedbacks_all : ∀ v : Fin FeedbackPattern.NUM_PATTERNS,
    FeedbackPattern.new (FeedbackPattern.to_feedbacks v.val) = v.val := by
  decide

/-! ## Claim theorems -/

/-- Claim C1: for every guess, pattern and solver state, `apply_feedback`
retains exactly the prior candidates whose computed feedback
`calculate guess c` equals the pattern, so the candidate-set size never
increases. -/
theorem C1_apply_feedback_retains_exactly (s : WordleSolver) (guess : Word)
    (pattern : FeedbackPattern) :
    (s.apply_feedback guess pattern).possible_answers =
      s.possible_answers.filter
        (fun c => FeedbackPattern.calculate guess c == pattern) ∧
    (s.apply_feedback guess pattern).possible_answers.length ≤
      s.possible_answers.length := by
  refine ⟨apply_feedback_possible_answers s guess pattern, ?_⟩
  rw [apply_feedback_possible_answers]
  exact List.length_filter_le _ _

/-- Claim C3: the duplicate-letter golden vectors of `calculate`. -/
theorem C3_golden_vectors :
    FeedbackPattern.to_feedbacks (FeedbackPattern.calculate wSpeed wCreep) =
      [Feedback.Absent, Feedback.Present, Feedback.Correct, Feedback.Correct,
        Feedback.Absent] ∧
    FeedbackPattern.to_feedbacks (FeedbackPattern.calculate wArose wCreep) =
      [Feedback.Absent, Feedback.Correct, Feedback.Absent, Feedback.Absent,
        Feedback.Present] ∧
    FeedbackPattern.to_feedbacks (FeedbackPattern.calculate wCrane wCharm) =
      [Feedback.Correct, Feedback.Present, Feedback.Correct, Feedback.Absent,
        Feedback.Absent] := by
  refine ⟨?_, ?_, ?_⟩ <;> decide

/-- Claim C4: decoding any value in `[0, 3^WORD_LENGTH - 1]` and re-encoding
it returns the value. -/
theorem C4_roundtrip (v : Nat) (h : v < FeedbackPattern.NUM_PATTERNS) :
    FeedbackPattern.new (FeedbackPattern.to_feedbacks v) = v :=
  new_to_feedbacks_all ⟨v, h⟩

/-- Closed instance of C4 at `v = 100`. -/
theorem C4_roundtrip_witness :
    100 < FeedbackPattern.NUM_PATTERNS ∧
    FeedbackPattern.new (FeedbackPattern.to_feedbacks 100) = 100 :=
  ⟨by decide, C4_roundtrip 100 (by decide)⟩

/-- Claim C8: `reset` restores the candidate set to the full original word
list (hence its size) and empties the constraint set. -/
theorem C8_reset (s : WordleSolver) :
    s.reset.possible_answers = s.all_words ∧
    s.reset.possible_answers.length = s.all_words.length ∧
    s.reset.constraints.is_empty = true :=
  ⟨rfl, rfl, rfl⟩

/-- Claim C10: `reset` leaves the hard-mode toggle (and the dictionary)
unchanged. -/
theorem C10_reset_frame (s : WordleSolver) :
    s.reset.hard_mode = s.hard_mode ∧ s.reset.all_words = s.all_words :=
  ⟨rfl, rfl⟩

/-- Claim C2: the solve loop runs at most 6 rounds; with no ranked guess it
stops with the pairs collected so far; each round records the best guess with
the provider's pattern, stops immediately on a win and otherwise continues on
the state with the feedback applied; a winning pattern occurs only as the
last element. -/
theorem C2_solve_loop (s : WordleSolver) (f : Word → FeedbackPattern) :
    s.solve_with_feedback f = WordleSolver.solveLoop 6 s f ∧
    (∀ (k : Nat) (t : WordleSolver), t.find_best_guess = none →
      WordleSolver.solveLoop (k + 1) t f = []) ∧
    (∀ (k : Nat) (t : WordleSolver) (g : GuessAnalysis), t.find_best_guess = some g →
      WordleSolver.solveLoop (k + 1) t f =
        (g.word, f g.word) ::
          (if (f g.word).is_win then []
           else WordleSolver.solveLoop k (t.apply_feedback g.word (f g.word)) f)) ∧
    (s.solve_with_feedback f).length ≤ 6 ∧
    (∀ (i : Nat) (gp : Word × FeedbackPattern),
      (s.solve_with_feedback f)[i]? = some gp → gp.2.is_win = true →
      i + 1 = (s.solve_with_feedback f).length) := by
  refine ⟨rfl, fun k t hb => ?_, fun k t g hb => ?_, solveLoop_length_le f 6 s,
    fun i gp => solveLoop_win_last f 6 s i gp⟩
  · simp [WordleSolver.solveLoop, hb]
  · simp only [WordleSolver.solveLoop, hb]
    by_cases hw2 : (f g.word).is_win = true
    · rw [if_pos hw2, if_pos hw2]
    · rw [if_neg hw2, if_neg hw2]

/-- Closed instance of C2: on a one-word dictionary with a winning oracle the
run is one round long and its only pattern is the winning one. -/
theorem C2_solve_loop_witness :
    (solverCrane.solve_with_feedback oracleWin)[0]? =
        some (wCrane, FeedbackPattern.ALL_CORRECT) ∧
    FeedbackPattern.is_win FeedbackPattern.ALL_CORRECT = true ∧
    0 + 1 = (solverCrane.solve_with_feedback oracleWin).length :=
  ⟨rfl, rfl,
    (C2_solve_loop solverCrane oracleWin).2.2.2.2 0 (wCrane, FeedbackPattern.ALL_CORRECT)
      rfl rfl⟩

/-- Claim C5: `parse` succeeds exactly on inputs of `WORD_LENGTH` recognized
alias characters (failing by returning nothing otherwise), and parses
"gybbb" and "21000" identically. -/
theorem C5_parse (sIn : List Char) :
    ((FeedbackPattern.parse sIn).isSome = true ↔
      (sIn.length = WORD_LENGTH ∧
        ∀ c ∈ sIn, (Feedback.from_char c).isSome = true)) ∧
    FeedbackPattern.parse pGybbb = FeedbackPattern.parse p21000 := by
  refine ⟨?_, by decide⟩
  rw [FeedbackPattern.parse]
  by_cases hlen : sIn.length = WORD_LENGTH
  · rw [if_neg (by simpa using hlen)]
    cases hm : FeedbackPattern.mapFromChar sIn with
    | none =>
      constructor
      · intro hfalse
        simp at hfalse
      · rintro ⟨_, hall⟩
        have hsome := (mapFromChar_isSome sIn).mpr hall
        rw [hm] at hsome
        simp at hsome
    | some fbs =>
      simp only [Option.isSome_some, true_iff]
      refine ⟨hlen, (mapFromChar_isSome sIn).mp ?_⟩
      rw [hm]
      rfl
  · rw [if_pos hlen]
    constructor
    · intro hfalse
      simp at hfalse
    · rintro ⟨h, _⟩
      exact absurd h hlen

/-- Closed instance of C5 at the "gybbb" vector. -/
theorem C5_parse_witness :
    (FeedbackPattern.parse pGybbb).isSome = true ∧
    FeedbackPattern.parse pGybbb = FeedbackPattern.parse p21000 :=
  ⟨((C5_parse pGybbb).1).mpr ⟨by decide, by decide⟩, (C5_parse pGybbb).2⟩

/-- Claim C7: the ranking fast paths by candidate count: 0 candidates give an
empty result; 1 candidate gives that candidate with entropy 0,
expected-remaining 1, flagged as a possible answer; 2 candidates give a
candidate with entropy exactly 1 bit, expected-remaining 1, flagged as a
possible answer. -/
theorem C7_fast_paths (s : WordleSolver) (n : Nat) :
    (s.possible_answers = [] → s.find_best_guesses n = []) ∧
    (∀ w, s.possible_answers = [w] →
      s.find_best_guesses n =
        [{ word := w, entropy := 0, expected_remaining := 1,
           is_possible_answer := true }]) ∧
    (∀ w v, s.possible_answers = [w, v] →
      s.find_best_guesses n =
        [{ word := w, entropy := 1, expected_remaining := 1,
           is_possible_answer := true }]) := by
  refine ⟨fun h => ?_, fun w h => ?_, fun w v h => ?_⟩ <;>
    simp [WordleSolver.find_best_guesses, h, List.headI]

/-- Closed instance of C7 on the two-word dictionary. -/
theorem C7_fast_paths_witness :
    solverCraneTrace.find_best_guesses 3 =
      [{ word := wCrane, entropy := 1, expected_remaining := 1,
         is_possible_answer := true }] :=
  (C7_fast_paths solverCraneTrace 3).2.2 wCrane wTrace rfl

/-- Claim C9: the benchmark average is the sum over every dictionary word of
the guess count of `solve_for_target` started from an identical copy of the
solver, divided by the word count; the sum does not depend on the order the
per-word runs are aggregated in. -/
theorem C9_benchmark (s : WordleSolver) (l : List Word) (hperm : l.Perm s.all_words) :
    s.benchmark_average_guesses =
      ((s.all_words.map fun target => (s.solve_for_target target).length).sum : ℝ) /
        (s.all_words.length : ℝ) ∧
    (l.map fun target => (s.solve_for_target target).length).sum =
      (s.all_words.map fun target => (s.solve_for_target target).length).sum :=
  ⟨rfl, (hperm.map _).sum_eq⟩

/-- Closed instance of C9 on the two-word dictionary with the targets
enumerated in reverse order. -/
theorem C9_benchmark_witness :
    ([wTrace, wCrane].Perm solverCraneTrace.all_words) ∧
    ([wTrace, wCrane].map fun target =>
        (solverCraneTrace.solve_for_target target).length).sum =
      (solverCraneTrace.all_words.map fun target =>
        (solverCraneTrace.solve_for_target target).length).sum :=
  ⟨by decide, (C9_benchmark solverCraneTrace [wTrace, wCrane] (by decide)).2⟩

/-- Claim C6: with hard mode enabled, in every reachable solver state (in
particular after any feedback applications), every guess returned by
`find_best_guesses` satisfies the accumulated hard-mode constraints. -/
theorem C6_ranked_guesses_valid (s : WordleSolver) (hr : Reachable s)
    (hm : s.hard_mode = true) (n : Nat) (g : GuessAnalysis)
    (hg : g ∈ s.find_best_guesses n) :
    s.constraints.is_valid g.word = true := by
  have hmemValid : ∀ w ∈ s.possible_answers, s.constraints.is_valid w = true :=
    fun w hw => ((reachable_inv hr).2 w hw).2
  have hheadI : s.possible_answers ≠ [] →
      s.constraints.is_valid s.possible_answers.headI = true := by
    intro hne
    cases hpa : s.possible_answers with
    | nil => exact absurd hpa hne
    | cons a l =>
      have := hmemValid a (by rw [hpa]; exact List.mem_cons_self a l)
      simpa [List.headI] using this
  rw [WordleSolver.find_best_guesses] at hg
  by_cases h0 : s.possible_answers.isEmpty = true
  · rw [if_pos h0] at hg
    simp at hg
  · rw [if_neg h0] at hg
    have hne : s.possible_answers ≠ [] := by
      intro hnil
      rw [hnil] at h0
      simp at h0
    by_cases h1 : s.possible_answers.length = 1
    · rw [if_pos h1] at hg
      rw [List.mem_singleton] at hg
      subst hg
      exact hheadI hne
    · rw [if_neg h1] at hg
      by_cases h2 : s.possible_answers.length = 2
      · rw [if_pos h2] at hg
        rw [List.mem_singleton] at hg
        subst hg
        exact hheadI hne
      · rw [if_neg h2] at hg
        have hg2 := List.mem_of_mem_take hg
        have hg3 := (List.mergeSort_perm _ WordleSolver.rankLE).mem_iff.mp hg2
        rw [List.mem_map] at hg3
        obtain ⟨word, hword, hEq⟩ := hg3
        rw [← hEq]
        rw [WordleSolver.valid_guesses, hm] at hword
        by_cases hemp : s.constraints.is_empty = true
        · exact is_empty_is_valid s.constraints hemp word
        · rw [if_pos (by simp [hemp])] at hword
          exact (List.mem_filter.mp hword).2

/-- Closed instance of C6: a hard-mode state reached by one feedback
application whose single ranked guess satisfies the constraints. -/
theorem C6_ranked_guesses_valid_witness :
    solverCraneHard.constraints.is_valid wCrane = true := by
  have hreach : Reachable solverCraneHard :=
    Reachable.apply _ wCrane FeedbackPattern.ALL_CORRECT (by decide)
      (Reachable.set_hard _ true (Reachable.init [wCrane] (by decide)))
  have hmem : (⟨wCrane, 0, 1, true⟩ : GuessAnalysis) ∈
      solverCraneHard.find_best_guesses 1 := by
    have hfb : solverCraneHard.find_best_guesses 1 =
        [(⟨wCrane, 0, 1, true⟩ : GuessAnalysis)] := rfl
    rw [hfb]
    exact List.mem_singleton.mpr rfl
  exact C6_ranked_guesses_valid solverCraneHard hreach rfl 1
    (⟨wCrane, 0, 1, true⟩ : GuessAnalysis) hmem
